import Mathlib

set_option maxRecDepth 40000

/- Shallow embedding of the dfu-flasher-nusb DFU/DfuSe driver.

   Machine integers are modelled as Nat with explicit reduction modulo 2^32
   (u32) or 2^16 (u16) wherever the source arithmetic can overflow; Rust
   release-profile (wrapping) semantics are used for integer overflow.
   Device I/O is modelled by passing the results of the underlying USB
   control transfers in as explicit oracle arguments. -/

deriving instance DecidableEq for Except

/-- u32 modulus. -/
def U32 : Nat := 2 ^ 32

/-- u16 modulus. -/
def U16 : Nat := 2 ^ 16

/-- DFU states, src/dfu/src/status.rs (enum State). -/
inductive State where
  | AppIdle
  | AppDetach
  | DfuIdle
  | DfuDownloadSync
  | DfuDownloadBusy
  | DfuDownloadIdle
  | DfuManifestSync
  | DfuManifest
  | DfuManifestWaitReset
  | DfuUploadIdle
  | DfuError
  | Unknown
deriving DecidableEq

/-- impl From(State) for u8, src/dfu/src/status.rs. -/
def State.toByte : State → Nat
  | .AppIdle => 0
  | .AppDetach => 1
  | .DfuIdle => 2
  | .DfuDownloadSync => 3
  | .DfuDownloadBusy => 4
  | .DfuDownloadIdle => 5
  | .DfuManifestSync => 6
  | .DfuManifest => 7
  | .DfuManifestWaitReset => 8
  | .DfuUploadIdle => 9
  | .DfuError => 10
  | .Unknown => 255

/-- impl From(u8) for State, src/dfu/src/status.rs. -/
def State.ofByte : Nat → State
  | 0 => .AppIdle
  | 1 => .AppDetach
  | 2 => .DfuIdle
  | 3 => .DfuDownloadSync
  | 4 => .DfuDownloadBusy
  | 5 => .DfuDownloadIdle
  | 6 => .DfuManifestSync
  | 7 => .DfuManifest
  | 8 => .DfuManifestWaitReset
  | 9 => .DfuUploadIdle
  | 10 => .DfuError
  | _ => .Unknown

/-- struct Status, src/dfu/src/status.rs. Fields are bytes except
    poll_timeout (usize). -/
structure Status where
  status : Nat
  poll_timeout : Nat
  state : Nat
  string_index : Nat
deriving DecidableEq

/-- Status::default(): all fields zero. -/
def Status.default : Status := ⟨0, 0, 0, 0⟩

/-- nusb::transfer::TransferError variants (external USB library). -/
inductive TransferError where
  | Cancelled
  | Stall
  | Disconnected
  | Fault
  | Unknown
deriving DecidableEq

/-- Abstraction of std::io::Error as carried inside Error::USB: only the
    distinctions the engine inspects (BrokenPipe kind; a wrapped
    TransferError) are kept. -/
inductive IOErrorKind where
  | brokenPipe
  | transfer (e : TransferError)
  | other
deriving DecidableEq

/-- struct Page, src/dfu/src/memory_layout.rs. -/
structure Page where
  address : Nat
  size : Nat
deriving DecidableEq

/-- struct MemoryLayout, src/dfu/src/memory_layout.rs. -/
structure MemoryLayout where
  pages : List Page
deriving DecidableEq

/-- enum Error, src/dfu-nusb/src/error.rs. -/
inductive Error where
  | DeviceNotFound (msg : String)
  | Argument (msg : String)
  | InvalidControlResponse (msg : String)
  | InvalidState (s : Status) (expected : State)
  | InvalidStatus (s : Status) (expected : Nat)
  | USB (context : String) (e : IOErrorKind)
  | FileIO (e : IOErrorKind)
  | UnknownCommandByte (b : Nat)
  | Address (addr : Nat)
  | Verify (addr : Nat)
  | MemoryLayout (s : String)
deriving DecidableEq

/-- enum DfuseCommand, src/dfu-flasher/src/dfuse_command.rs. -/
inductive DfuseCommand where
  | SetAddress (address : Nat)
  | ErasePage (address : Nat)
  | MassErase
  | ReadUnprotected
deriving DecidableEq

/-- The four little-endian address bytes pushed by From(DfuseCommand) for
    Vec(u8): (address & 0xFF) as u8, (address >> 8) as u8, (address >> 16)
    as u8, (address >> 24) as u8.  The `as u8` cast keeps the low 8 bits. -/
def addrBytesLE (address : Nat) : List Nat :=
  [address &&& 0xFF, (address >>> 8) &&& 0xFF,
   (address >>> 16) &&& 0xFF, (address >>> 24) &&& 0xFF]

/-- impl From(DfuseCommand) for Vec(u8), src/dfu-flasher/src/dfuse_command.rs:
    opcode byte, then the LE address for SetAddress/ErasePage. -/
def DfuseCommand.encode : DfuseCommand → List Nat
  | .SetAddress address => 0x21 :: addrBytesLE address
  | .ErasePage address => 0x41 :: addrBytesLE address
  | .MassErase => [0x41]
  | .ReadUnprotected => [0x92]

/-- impl TryFrom(u8) for DfuseCommand, src/dfu-flasher/src/dfuse_command.rs. -/
def DfuseCommand.tryFromByte (cmd : Nat) : Except Error DfuseCommand :=
  if cmd = 0x21 then .ok (.SetAddress 0)
  else if cmd = 0x41 then .ok .MassErase
  else if cmd = 0x92 then .ok .ReadUnprotected
  else .error (.UnknownCommandByte cmd)

/-- Status::get reply parsing, src/dfu/src/status.rs lines 113-126: the part
    of Status::get that interprets the 6-byte GET_STATUS reply `data`
    (the preceding control transfer is the oracle that produced `data`). -/
def Status.parse (data : List Nat) : Except Error Status :=
  if data.length ≠ 6 then
    .error (.InvalidControlResponse ("Status length was " ++ toString data.length))
  else
    .ok { status := data.getD 0 0
          poll_timeout := ((data.getD 1 0) <<< 16) ||| ((data.getD 2 0) <<< 8) ||| data.getD 3 0
          state := data.getD 4 0
          string_index := data.getD 5 0 }

/-- C7: Status parsing fails with InvalidControlResponse whenever the
    GET_STATUS reply is not exactly 6 bytes; a 6-byte reply [b0,b1,b2,b3,b4,b5]
    yields status=b0, poll_timeout=(b1<<16)|(b2<<8)|b3, state=b4,
    string_index=b5; in particular [0,1,2,3,4,7] yields status=0,
    poll_timeout=0x010203, state=4, string_index=7. -/
theorem C7_status_parse :
    (∀ data : List Nat, data.length ≠ 6 →
      Status.parse data =
        .error (.InvalidControlResponse ("Status length was " ++ toString data.length))) ∧
    (∀ b0 b1 b2 b3 b4 b5 : Nat,
      Status.parse [b0, b1, b2, b3, b4, b5] =
        .ok ⟨b0, (b1 <<< 16) ||| (b2 <<< 8) ||| b3, b4, b5⟩) ∧
    Status.parse [0, 0x01, 0x02, 0x03, 4, 7] = .ok ⟨0, 0x010203, 4, 7⟩ := by
  refine ⟨fun data h => ?_, fun b0 b1 b2 b3 b4 b5 => ?_, by decide⟩
  · simp [Status.parse, h]
  · simp [Status.parse, List.getD]

/-- C7 witness: the theorem applied at a concrete 5-byte reply. -/
theorem C7_status_parse_witness :
    Status.parse [1, 2, 3, 4, 5] =
      .error (.InvalidControlResponse ("Status length was " ++ toString (5 : Nat))) := by
  have h := C7_status_parse.1 [1, 2, 3, 4, 5] (by decide)
  simpa using h

/-- C8: SetAddress(a) encodes to [0x21] plus the four LE bytes of a,
    ErasePage(a) to [0x41] plus the same bytes; MassErase to [0x41] and
    ReadUnprotected to [0x92]; decoding maps 0x21 to SetAddress(0), 0x41 to
    MassErase, 0x92 to ReadUnprotected, and any other byte b fails with
    UnknownCommandByte(b). -/
theorem C8_dfuse_codec :
    (∀ a : Nat, DfuseCommand.encode (.SetAddress a) =
      [0x21, a &&& 0xFF, (a >>> 8) &&& 0xFF, (a >>> 16) &&& 0xFF, (a >>> 24) &&& 0xFF]) ∧
    (∀ a : Nat, DfuseCommand.encode (.ErasePage a) =
      [0x41, a &&& 0xFF, (a >>> 8) &&& 0xFF, (a >>> 16) &&& 0xFF, (a >>> 24) &&& 0xFF]) ∧
    DfuseCommand.encode .MassErase = [0x41] ∧
    DfuseCommand.encode .ReadUnprotected = [0x92] ∧
    DfuseCommand.tryFromByte 0x21 = .ok (.SetAddress 0) ∧
    DfuseCommand.tryFromByte 0x41 = .ok .MassErase ∧
    DfuseCommand.tryFromByte 0x92 = .ok .ReadUnprotected ∧
    (∀ b : Nat, b ≠ 0x21 → b ≠ 0x41 → b ≠ 0x92 →
      DfuseCommand.tryFromByte b = .error (.UnknownCommandByte b)) := by
  refine ⟨fun a => rfl, fun a => rfl, rfl, rfl, by decide, by decide, by decide,
    fun b h1 h2 h3 => ?_⟩
  simp [DfuseCommand.tryFromByte, h1, h2, h3]

/-- C8 witness: the theorem applied at concrete inputs, including the
    unknown-opcode case at byte 0. -/
theorem C8_dfuse_codec_witness :
    DfuseCommand.encode (.SetAddress 0x08010000) = [0x21, 0x00, 0x00, 0x01, 0x08] ∧
    DfuseCommand.tryFromByte 0 = .error (.UnknownCommandByte 0) := by
  constructor
  · have h := C8_dfuse_codec.1 0x08010000
    simpa using h
  · exact C8_dfuse_codec.2.2.2.2.2.2.2 0 (by decide) (by decide) (by decide)

/-- struct Transaction, src/dfu-nusb/src/core.rs lines 27-34 (identical in
    src/dfu/src/core.rs). -/
structure Transaction where
  transaction : Nat
  address : Nat
  pending : Nat
  xfer : Nat
  xfer_max : Nat
deriving DecidableEq

/-- Transaction::set_xfer, src/dfu-nusb/src/core.rs lines 49-57. -/
def Transaction.set_xfer (t : Transaction) : Transaction :=
  if t.xfer_max ≤ t.pending then
    { t with xfer := t.xfer_max, pending := t.pending - t.xfer_max }
  else
    { t with xfer := t.pending % t.xfer_max, pending := 0 }

/-- Transaction::new, src/dfu-nusb/src/core.rs lines 37-47. -/
def Transaction.new (address pending xfer_max : Nat) : Transaction :=
  Transaction.set_xfer
    { transaction := 2, address, pending, xfer := xfer_max, xfer_max }

/-- Iterator::next for Transaction, src/dfu-nusb/src/core.rs lines 60-72.
    The u32 address and u16 transaction counter wrap on overflow. -/
def Transaction.step (t : Transaction) : Option Unit × Transaction :=
  if t.pending = 0 then (none, { t with xfer := 0 })
  else
    let t := t.set_xfer
    (some (), { t with address := (t.address + t.xfer) % U32,
                       transaction := (t.transaction + 1) % U16 })

/-- The chunks consumed by the caller loops (verify / upload /
    read_flash_to_slice): while xfer > 0, use (transaction, address, xfer),
    then call next().  fuel bounds the number of iterations. -/
def runChunks : Nat → Transaction → List (Nat × Nat × Nat)
  | 0, _ => []
  | fuel + 1, t =>
    if t.xfer = 0 then []
    else (t.transaction, t.address, t.xfer) :: runChunks fuel (t.step).2

/-- C1 counterexample: for Transaction::new(0, 3, 2) the first chunk's xfer
    is 2, yet next() moves address from 0 to 1 (the new chunk's xfer), not
    to 0 + 2 as the claim's "increments address by the prior xfer" demands. -/
theorem C1_counterexample :
    (Transaction.new 0 3 2).address = 0 ∧
    (Transaction.new 0 3 2).xfer = 2 ∧
    ((Transaction.new 0 3 2).step).2.address = 1 ∧
    ((Transaction.new 0 3 2).step).2.address ≠
      (Transaction.new 0 3 2).address + (Transaction.new 0 3 2).xfer := by
  refine ⟨rfl, rfl, ?_, ?_⟩ <;> decide

lemma Transaction.set_xfer_ge (t : Transaction) (h : t.xfer_max ≤ t.pending) :
    t.set_xfer = { t with xfer := t.xfer_max, pending := t.pending - t.xfer_max } := by
  rw [Transaction.set_xfer, if_pos h]

lemma Transaction.set_xfer_lt (t : Transaction) (h : ¬ t.xfer_max ≤ t.pending) :
    t.set_xfer = { t with xfer := t.pending % t.xfer_max, pending := 0 } := by
  rw [Transaction.set_xfer, if_neg h]

lemma Transaction.step_pos (t : Transaction) (h : t.pending ≠ 0) :
    t.step = (some (),
      { t.set_xfer with address := (t.address + (t.set_xfer).xfer) % U32,
                        transaction := (t.transaction + 1) % U16 }) := by
  rw [Transaction.step, if_neg h]
  rcases t with ⟨tr, ad, pe, xf, xm⟩
  rw [Transaction.set_xfer]
  by_cases hc : xm ≤ pe <;> simp [hc]

lemma Transaction.step_zero (t : Transaction) (h : t.pending = 0) :
    t.step = (none, { t with xfer := 0 }) := by
  rw [Transaction.step, if_pos h]

/-- C1 (amended): next() with pending > 0 advances the address by the NEW
    chunk's xfer (the one set_xfer just selected) and the transaction counter
    by 1; for pending = 3·X with xfer_max = X the three chunks carry
    transaction counters 2,3,4 at addresses A, A+X, A+2X, and after the last
    chunk xfer is 0. -/
theorem C1_transaction_chunks (A X : Nat) (hX : 0 < X) (hX16 : X < U16)
    (hA : A + 3 * X < U32) :
    runChunks 4 (Transaction.new A (3 * X) X) =
      [(2, A, X), (3, A + X, X), (4, A + 2 * X, X)] ∧
    (Transaction.new A (3 * X) X).step.2.step.2.step.2.xfer = 0 ∧
    (∀ t : Transaction, t.pending ≠ 0 →
      (t.step).2.address = (t.address + (t.set_xfer).xfer) % U32 ∧
      (t.step).2.transaction = (t.transaction + 1) % U16) := by
  have hXne : ¬ (X = 0) := by omega
  have hA1 : A + X < U32 := by omega
  have hA2 : A + X + X < U32 := by omega
  have h0 : Transaction.new A (3 * X) X = ⟨2, A, 2 * X, X, X⟩ := by
    rw [Transaction.new, Transaction.set_xfer_ge _ (by show X ≤ 3 * X; omega)]
    dsimp only
    simp [Transaction.mk.injEq]
    all_goals omega
  have h1 : (Transaction.mk 2 A (2 * X) X X).step = (some (), ⟨3, A + X, X, X, X⟩) := by
    rw [Transaction.step_pos _ (by show 2 * X ≠ 0; omega),
        Transaction.set_xfer_ge _ (by show X ≤ 2 * X; omega)]
    dsimp only
    rw [Nat.mod_eq_of_lt hA1, Nat.mod_eq_of_lt (show 2 + 1 < U16 by decide)]
    simp [Prod.mk.injEq, Transaction.mk.injEq]
    all_goals omega
  have h2 : (Transaction.mk 3 (A + X) X X X).step = (some (), ⟨4, A + 2 * X, 0, X, X⟩) := by
    rw [Transaction.step_pos _ (by show X ≠ 0; omega),
        Transaction.set_xfer_ge _ (by show X ≤ X; omega)]
    dsimp only
    rw [Nat.mod_eq_of_lt hA2, Nat.mod_eq_of_lt (show 3 + 1 < U16 by decide)]
    simp [Prod.mk.injEq, Transaction.mk.injEq]
    all_goals omega
  have h3 : (Transaction.mk 4 (A + 2 * X) 0 X X).step = (none, ⟨4, A + 2 * X, 0, 0, X⟩) := by
    rw [Transaction.step_zero _ rfl]
  refine ⟨?_, ?_, ?_⟩
  · rw [h0, runChunks, if_neg hXne]
    rw [h1]
    dsimp only
    rw [runChunks, if_neg hXne, h2]
    dsimp only
    rw [runChunks, if_neg hXne, h3]
    dsimp only
    rw [runChunks, if_pos rfl]
  · rw [h0, h1]
    dsimp only
    rw [h2]
    dsimp only
    rw [h3]
  · intro t ht
    rw [Transaction.step_pos t ht]
    exact ⟨rfl, rfl⟩

/-- C1 witness: the amended theorem applied at A=0x08000000, X=1024. -/
theorem C1_transaction_chunks_witness :
    runChunks 4 (Transaction.new 0x08000000 (3 * 1024) 1024) =
      [(2, 0x08000000, 1024), (3, 0x08000000 + 1024, 1024),
       (4, 0x08000000 + 2 * 1024, 1024)] :=
  (C1_transaction_chunks 0x08000000 1024 (by decide) (by decide) (by decide)).1

/-- The placeholder the get_status loop starts from,
    src/dfu-nusb/src/core.rs line 200. -/
def getStatusPlaceholder : Except Error Status :=
  .error (.Argument "Get status retries failed")

/-- The retry loop of Dfu::get_status, src/dfu-nusb/src/core.rs lines 199-222.
    `reads k` is the result of the k-th call to Status::get.  The loop body
    runs while the (u8) counter is positive: it performs one read; on success
    the counter is zeroed and the Ok is returned; on any error the loop
    continues with the already-decremented counter (for a BrokenPipe USB
    error or an InvalidControlResponse this is the explicit `continue` after
    a sleep; for any other error control falls through to the same loop
    check).  `acc` is the current value of the `status` variable. -/
def getStatusLoop (reads : Nat → Except Error Status) :
    Nat → Nat → Except Error Status → Except Error Status
  | 0, _, acc => acc
  | n + 1, k, _ =>
    match reads k with
    | .ok s => .ok s
    | .error e => getStatusLoop reads n (k + 1) (.error e)

/-- Dfu::get_status(retries): `retries += 1`, then the loop, starting from
    the placeholder error. -/
def getStatus (reads : Nat → Except Error Status) (retries : Nat) :
    Except Error Status :=
  getStatusLoop reads (retries + 1) 0 getStatusPlaceholder

lemma getStatusLoop_spec (reads : Nat → Except Error Status) :
    ∀ (n k : Nat) (acc : Except Error Status), 0 < n →
      ∃ i, i < n ∧ getStatusLoop reads n k acc = reads (k + i) ∧
        (∀ j, j < i → ∃ e, reads (k + j) = .error e) ∧
        ((∃ s, reads (k + i) = .ok s) ∨ i = n - 1) := by
  intro n
  induction n with
  | zero => intro k acc h; omega
  | succ m ih =>
    intro k acc _
    rw [getStatusLoop]
    cases hr : reads k with
    | ok s =>
      refine ⟨0, by omega, by simp [hr], fun j hj => by omega, .inl ⟨s, by simp [hr]⟩⟩
    | error e =>
      cases m with
      | zero =>
        refine ⟨0, by omega, by simp [getStatusLoop, hr], fun j hj => by omega, .inr rfl⟩
      | succ m2 =>
        obtain ⟨i, hi, heq, herr, hlast⟩ := ih (k + 1) (.error e) (by omega)
        refine ⟨i + 1, by omega, ?_, ?_, ?_⟩
        · rw [show k + (i + 1) = k + 1 + i by omega]
          simpa using heq
        · intro j hj
          cases j with
          | zero => exact ⟨e, by simpa using hr⟩
          | succ j2 =>
            obtain ⟨e2, he2⟩ := herr j2 (by omega)
            refine ⟨e2, ?_⟩
            rw [show k + (j2 + 1) = k + 1 + j2 by omega]
            exact he2
        · rcases hlast with ⟨s, hs⟩ | hl
          · refine .inl ⟨s, ?_⟩
            rw [show k + (i + 1) = k + 1 + i by omega]
            exact hs
          · exact .inr (by omega)

/-- C9: for retries at most 254 the u8 `retries + 1` does not overflow, the
    underlying status read is attempted at least once, the returned value is
    the result of the last attempted read (all earlier attempts having
    errored, and the last one being either the first success or the final
    permitted attempt), and the pre-loop placeholder error is never
    returned when the reads themselves never produce it. -/
theorem C9_get_status (reads : Nat → Except Error Status) (retries : Nat)
    (h : retries ≤ 254) :
    retries + 1 < 256 ∧
    (∃ i, i ≤ retries ∧ getStatus reads retries = reads i ∧
      (∀ j, j < i → ∃ e, reads j = .error e) ∧
      ((∃ s, reads i = .ok s) ∨ i = retries)) ∧
    ((∀ j, reads j ≠ getStatusPlaceholder) →
      getStatus reads retries ≠ getStatusPlaceholder) := by
  obtain ⟨i, hi, heq, herr, hlast⟩ :=
    getStatusLoop_spec reads (retries + 1) 0 getStatusPlaceholder (by omega)
  simp only [Nat.zero_add] at heq herr hlast
  refine ⟨by omega, ⟨i, by omega, by rw [getStatus, heq], herr, ?_⟩, ?_⟩
  · rcases hlast with hs | hl
    · exact .inl hs
    · exact .inr (by omega)
  · intro hne
    rw [getStatus, heq]
    exact hne i

/-- C9 witness: the theorem applied at a concrete oracle (first read EPIPE,
    second read Ok) with retries = 3. -/
theorem C9_get_status_witness :
    getStatus
      (fun k => if k = 0 then .error (.USB "Control transfer" .brokenPipe)
                else .ok Status.default) 3 = .ok Status.default := by
  obtain ⟨-, ⟨i, hi, heq, herr, hlast⟩, -⟩ :=
    C9_get_status
      (fun k => if k = 0 then .error (.USB "Control transfer" .brokenPipe)
                else .ok Status.default) 3 (by omega)
  interval_cases i <;> simp_all

/-- The post-loop checks of Dfu::status_wait_for, src/dfu-nusb/src/core.rs
    lines 269-277: InvalidState if the target state was not reached,
    InvalidStatus if the state is right but status is nonzero, else Ok. -/
def finalCheck (s : Status) (target : State) : Except Error Status :=
  if s.state ≠ target.toByte then .error (.InvalidState s target)
  else if s.status ≠ 0 then .error (.InvalidStatus s 0)
  else .ok s

/-- The polling loop of Dfu::status_wait_for, src/dfu-nusb/src/core.rs lines
    260-267.  `g k` is the result of the k-th call to get_status(10) made by
    this invocation; `reads` counts the get_status calls already made; `r` is
    the current value of the (already incremented) retries counter.  Each
    re-read is preceded by a 100 ms sleep in the source (timing is not
    modelled). -/
def swfLoop (g : Nat → Except Error Status) (target : State) :
    Nat → Status → Nat → Except Error Status × Nat
  | 0, s, reads => (finalCheck s target, reads)
  | r + 1, s, reads =>
    if s.state = target.toByte then (finalCheck s target, reads)
    else
      match g reads with
      | .error e => (.error e, reads + 1)
      | .ok s2 => swfLoop g target r s2 (reads + 1)

/-- Dfu::status_wait_for(retries, wait_for_state), src/dfu-nusb/src/core.rs
    lines 248-278: `retries += 1`, target defaults to DfuDownloadBusy, one
    initial get_status(10), then the loop.  Returns the result together with
    the number of get_status calls performed. -/
def statusWaitFor (g : Nat → Except Error Status) (retries : Nat)
    (wait_for_state : Option State) : Except Error Status × Nat :=
  let target := wait_for_state.getD State.DfuDownloadBusy
  match g 0 with
  | .error e => (.error e, 1)
  | .ok s => swfLoop g target (retries + 1) s 1

lemma finalCheck_ok (s : Status) (target : State) (s2 : Status)
    (h : finalCheck s target = .ok s2) : s2 = s := by
  rw [finalCheck] at h
  split at h
  · exact absurd h (by simp)
  · split at h
    · exact absurd h (by simp)
    · cases h
      rfl

lemma swfLoop_spec (g : Nat → Except Error Status) (target : State) :
    ∀ (r : Nat) (s : Status) (reads : Nat), g (reads - 1) = .ok s →
      (swfLoop g target r s reads).2 ≤ reads + r ∧
      (∀ s2, (swfLoop g target r s reads).1 = .ok s2 →
        g ((swfLoop g target r s reads).2 - 1) = .ok s2) := by
  intro r
  induction r with
  | zero =>
    intro s reads hinv
    rw [swfLoop]
    refine ⟨by omega, fun s2 h2 => ?_⟩
    rw [finalCheck_ok s target s2 h2]
    exact hinv
  | succ m ih =>
    intro s reads hinv
    rw [swfLoop]
    by_cases hst : s.state = target.toByte
    · rw [if_pos hst]
      refine ⟨by omega, fun s2 h2 => ?_⟩
      rw [finalCheck_ok s target s2 h2]
      exact hinv
    · rw [if_neg hst]
      cases hg : g reads with
      | error e =>
        dsimp only
        exact ⟨by omega, fun s2 h2 => by simp at h2⟩
      | ok s2 =>
        dsimp only
        obtain ⟨hc, hok⟩ := ih s2 (reads + 1) (by simpa using hg)
        exact ⟨by omega, hok⟩

/-- C3 counterexample: with retries = 0 and an oracle whose state never
    reaches the (default) target, status_wait_for performs 2 get_status
    reads, exceeding the claimed bound retries + 1 = 1. -/
theorem C3_counterexample :
    (statusWaitFor (fun _ => .ok Status.default) 0 none).2 = 2 ∧
    ¬ (statusWaitFor (fun _ => .ok Status.default) 0 none).2 ≤ 0 + 1 := by
  constructor <;> decide

/-- C3 (amended): status_wait_for(r, target) performs at most r + 2
    get_status reads in total (one before the loop plus at most r + 1 in the
    loop, each loop read preceded by a 100 ms sleep; each read is a
    get_status call with internal retries = 10), and when it returns Ok the
    returned Status is the final one read. -/
theorem C3_status_wait_reads (g : Nat → Except Error Status) (r : Nat)
    (w : Option State) :
    (statusWaitFor g r w).2 ≤ r + 2 ∧
    (∀ s, (statusWaitFor g r w).1 = .ok s →
      g ((statusWaitFor g r w).2 - 1) = .ok s) := by
  rw [statusWaitFor]
  cases hg : g 0 with
  | error e =>
    dsimp only
    exact ⟨by omega, fun s2 h2 => by simp at h2⟩
  | ok s =>
    dsimp only
    obtain ⟨hc, hok⟩ :=
      swfLoop_spec g (w.getD State.DfuDownloadBusy) (r + 1) s 1 (by simpa using hg)
    exact ⟨by omega, hok⟩

/-- C3 witness: the amended theorem applied at a concrete oracle that is
    already in the target state. -/
theorem C3_status_wait_reads_witness :
    (statusWaitFor (fun _ => .ok ⟨0, 0, 4, 0⟩) 0 none).2 ≤ 0 + 2 ∧
    (fun _ => (.ok ⟨0, 0, 4, 0⟩ : Except Error Status))
        ((statusWaitFor (fun _ => .ok ⟨0, 0, 4, 0⟩) 0 none).2 - 1) =
      .ok ⟨0, 0, 4, 0⟩ := by
  have h := C3_status_wait_reads (fun _ => .ok ⟨0, 0, 4, 0⟩) 0 none
  exact ⟨h.1, h.2 ⟨0, 0, 4, 0⟩ (by decide)⟩

/-- Device-visible actions of the engine, at the granularity the temporal
    claims are stated at. -/
inductive Event where
  | dnload (transaction : Nat) (data : List Nat)
  | setAddressOp (address : Nat)
  | statusWait (target : State)
  | statusRead
  | abortToIdle
  | sleepMs (ms : Nat)
deriving DecidableEq

/-- Dfu::dfuse_download, src/dfu-nusb/src/core.rs lines 552-577.
    `transferRes` is the outcome of the DNLOAD control-OUT (none = success);
    `abortRes` is the outcome abort_to_idle would have, consulted only on a
    stall.  Returns the result and the actions performed: on a stall the
    engine logs, runs abort_to_idle, sleeps 10 ms and returns Ok (a failure
    of abort_to_idle itself propagates); any other transfer error becomes
    Error::USB("Dfuse download", e). -/
def dfuseDownload (buf : List Nat) (transaction : Nat)
    (transferRes : Option TransferError) (abortRes : Except Error Unit) :
    Except Error Unit × List Event :=
  match transferRes with
  | none => (.ok (), [.dnload transaction buf])
  | some .Stall =>
    match abortRes with
    | .ok _ => (.ok (), [.dnload transaction buf, .abortToIdle, .sleepMs 10])
    | .error e => (.error e, [.dnload transaction buf, .abortToIdle])
  | some e => (.error (.USB "Dfuse download" (.transfer e)), [.dnload transaction buf])

/-- C2: a stall (TransferError::Stall) on the DFU_DNLOAD control-OUT makes
    dfuse_download run abort_to_idle, sleep 10 ms and return Ok (given that
    the abort itself succeeds); every other transfer error is propagated to
    the caller as Error::USB. -/
theorem C2_dfuse_download_stall (buf : List Nat) (transaction : Nat)
    (abortRes : Except Error Unit) (e : TransferError) (he : e ≠ .Stall) :
    dfuseDownload buf transaction (some .Stall) (.ok ()) =
      (.ok (), [.dnload transaction buf, .abortToIdle, .sleepMs 10]) ∧
    (dfuseDownload buf transaction (some e) abortRes).1 =
      .error (.USB "Dfuse download" (.transfer e)) ∧
    dfuseDownload buf transaction none abortRes = (.ok (), [.dnload transaction buf]) := by
  refine ⟨rfl, ?_, rfl⟩
  cases e with
  | Stall => exact absurd rfl he
  | _ => rfl

/-- C2 witness: the theorem applied with a Disconnected transfer error. -/
theorem C2_dfuse_download_stall_witness :
    dfuseDownload [0x41] 0 (some .Stall) (.ok ()) =
      (.ok (), [.dnload 0 [0x41], .abortToIdle, .sleepMs 10]) ∧
    (dfuseDownload [0x41] 0 (some .Disconnected) (.ok ())).1 =
      .error (.USB "Dfuse download" (.transfer .Disconnected)) := by
  have h := C2_dfuse_download_stall [0x41] 0 (.ok ()) .Disconnected (by decide)
  exact ⟨h.1, h.2.1⟩

/-- The engine state relevant to the reset/drop claims: the `detached`
    flag of struct Dfu, src/dfu-nusb/src/core.rs line 106. -/
structure DfuState where
  detached : Bool
deriving DecidableEq

/-- Dfu::reset_stm32, src/dfu-nusb/src/core.rs lines 286-300.  `r1` is the
    outcome of set_address(address) (which issues DNLOAD(SetAddress, 0) and
    waits for DfuDownloadIdle); `r2` the outcome of the empty DNLOAD with
    transaction = 2.  The final get_status(0) result is discarded
    (unwrap_or_else with Status::default), so it is not a parameter.
    Returns (result, new state, actions). -/
def resetStm32 (address : Nat) (d : DfuState) (r1 r2 : Except Error Unit) :
    Except Error Unit × DfuState × List Event :=
  match r1 with
  | .error e => (.error e, d, [.setAddressOp address])
  | .ok _ =>
    match r2 with
    | .error e => (.error e, d, [.setAddressOp address, .dnload 2 []])
    | .ok _ => (.ok (), { detached := true },
        [.setAddressOp address, .dnload 2 [], .statusRead])

/-- Drop for Dfu, src/dfu-nusb/src/core.rs lines 111-128: if detached,
    return immediately with no I/O; otherwise wait for DfuIdle and, if that
    fails (`idleOk = false`), run a best-effort abort_to_idle. -/
def dropDfu (d : DfuState) (idleOk : Bool) : List Event :=
  if d.detached then []
  else if idleOk then [.statusWait .DfuIdle]
  else [.statusWait .DfuIdle, .abortToIdle]

/-- C4: whenever reset_stm32(a) returns Ok it has issued the SetAddress(a)
    sequence, an empty DNLOAD with transaction counter 2 and one best-effort
    status read, the detached flag is true afterwards, and dropping the
    engine afterwards performs no further device I/O whatever the idle check
    would have reported. -/
theorem C4_reset_detached (address : Nat) (d : DfuState)
    (r1 r2 : Except Error Unit)
    (h : (resetStm32 address d r1 r2).1 = .ok ()) :
    (resetStm32 address d r1 r2).2.1.detached = true ∧
    (resetStm32 address d r1 r2).2.2 =
      [.setAddressOp address, .dnload 2 [], .statusRead] ∧
    (∀ idleOk, dropDfu (resetStm32 address d r1 r2).2.1 idleOk = []) := by
  cases r1 with
  | error e => exact absurd h (by simp [resetStm32])
  | ok u =>
    cases r2 with
    | error e => exact absurd h (by simp [resetStm32])
    | ok u2 => exact ⟨rfl, rfl, fun idleOk => rfl⟩

/-- C4 witness: the theorem applied at a concrete successful reset. -/
theorem C4_reset_detached_witness :
    (resetStm32 0x08000000 ⟨false⟩ (.ok ()) (.ok ())).2.1.detached = true ∧
    dropDfu (resetStm32 0x08000000 ⟨false⟩ (.ok ()) (.ok ())).2.1 false = [] := by
  have h := C4_reset_detached 0x08000000 ⟨false⟩ (.ok ()) (.ok ()) (by decide)
  exact ⟨h.1, h.2.2 false⟩

/-- s.replace("0x", ""): left-to-right removal of non-overlapping "0x"
    occurrences, src/dfu/src/memory_layout.rs line 20. -/
def replace0x : List Char → List Char
  | '0' :: 'x' :: rest => replace0x rest
  | c :: rest => c :: replace0x rest
  | [] => []

/-- str::split(c) semantics: splitting the empty string yields one empty
    piece; every separator starts a new piece. -/
def splitOnChar (c : Char) : List Char → List (List Char)
  | [] => [[]]
  | x :: xs =>
    if x = c then [] :: splitOnChar c xs
    else
      match splitOnChar c xs with
      | [] => [[x]]
      | g :: gs => (x :: g) :: gs

/-- String.trim_matches(p): strip matching characters from both ends. -/
def trimMatches (p : Char → Bool) (l : List Char) : List Char :=
  ((l.dropWhile p).reverse.dropWhile p).reverse

def hexDigitVal (c : Char) : Option Nat :=
  if c.isDigit then some (c.toNat - 48)
  else if 'a' ≤ c ∧ c ≤ 'f' then some (c.toNat - 87)
  else if 'A' ≤ c ∧ c ≤ 'F' then some (c.toNat - 55)
  else none

def hexAcc : Nat → List Char → Option Nat
  | acc, [] => some acc
  | acc, c :: cs =>
    match hexDigitVal c with
    | none => none
    | some d => hexAcc (acc * 16 + d) cs

/-- u32::from_str_radix(s, 16): an optional leading '+', at least one hex
    digit, and the value must fit in u32 (overflow is a parse error). -/
def parseHexU32 (l : List Char) : Option Nat :=
  let l2 := match l with
    | '+' :: rest => rest
    | _ => l
  match l2 with
  | [] => none
  | _ =>
    match hexAcc 0 l2 with
    | none => none
    | some v => if v < U32 then some v else none

def decAcc : Nat → List Char → Option Nat
  | acc, [] => some acc
  | acc, c :: cs => if c.isDigit then decAcc (acc * 10 + (c.toNat - 48)) cs else none

/-- str::parse for u32: an optional leading '+', at least one digit, and
    the value must fit in u32. -/
def parseDecU32 (l : List Char) : Option Nat :=
  let l2 := match l with
    | '+' :: rest => rest
    | _ => l
  match l2 with
  | [] => none
  | _ =>
    match decAcc 0 l2 with
    | none => none
    | some v => if v < U32 then some v else none

def strOf (l : List Char) : String := ⟨l⟩

/-- One region of the layout string ("count*sizeUnit"), src/dfu/src/
    memory_layout.rs lines 30-47, parsed to (page_count, size in bytes).
    trim_matches(is_alphabetic) extracts the numeric size, trim_matches
    (is_numeric) the unit letters; only the first unit letter is matched and
    K multiplies by 1024, M by 1048576 (the u32 product wraps).  Where the
    source would panic (byte-slicing `&prefix[0..1]` of an empty or
    non-ASCII-leading unit) the string is likewise not accepted; the panic
    is modelled as a parse error. -/
def parseRegion (p : List Char) : Except Error (Nat × Nat) :=
  let kv := splitOnChar '*' p
  match kv.get? 0 with
  | none => .error (.MemoryLayout (strOf p))
  | some cnt =>
    match parseDecU32 cnt with
    | none => .error (.MemoryLayout (strOf p))
    | some page_count =>
      match kv.get? 1 with
      | none => .error (.MemoryLayout (strOf p))
      | some valunit =>
        let sizeCs := trimMatches Char.isAlpha valunit
        let unitCs := trimMatches Char.isDigit valunit
        match parseDecU32 sizeCs with
        | none => .error (.MemoryLayout (strOf sizeCs))
        | some size =>
          match unitCs with
          | [] => .error (.MemoryLayout "panic: empty unit")
          | c :: _ =>
            if c = 'K' then .ok (page_count, (size * 1024) % U32)
            else if c = 'M' then .ok (page_count, (size * 1024 * 1024) % U32)
            else .error (.MemoryLayout ("Invalid prefix " ++ strOf unitCs))

def parseRegions : List (List Char) → Except Error (List (Nat × Nat))
  | [] => .ok []
  | p :: ps =>
    match parseRegion p with
    | .error e => .error e
    | .ok r =>
      match parseRegions ps with
      | .error e => .error e
      | .ok rs => .ok (r :: rs)

/-- The inner `for _ in 0..page_count` loop, src/dfu/src/memory_layout.rs
    lines 48-51: push count pages, advancing the (u32, wrapping) address by
    size each time. -/
def buildRegion (address size : Nat) : Nat → List Page
  | 0 => []
  | n + 1 => ⟨address, size⟩ :: buildRegion ((address + size) % U32) size n

/-- The address reached after pushing n pages of the given size. -/
def afterRegion (address size : Nat) : Nat → Nat
  | 0 => address
  | n + 1 => afterRegion ((address + size) % U32) size n

def buildRegions (address : Nat) : List (Nat × Nat) → List Page
  | [] => []
  | (cnt, size) :: rest =>
    buildRegion address size cnt ++ buildRegions (afterRegion address size cnt) rest

/-- MemoryLayout::from_str, src/dfu/src/memory_layout.rs lines 19-54:
    strip "0x", split on '/', element 1 is the hex start address, element 2
    the comma-separated region list; build the page vector region by region.
    (The source interleaves parsing and page building; any parse error
    discards the whole result, so the two decompose.) -/
def MemoryLayout.fromStr (s : String) : Except Error MemoryLayout :=
  let cs := replace0x s.data
  let parts := splitOnChar '/' cs
  match parts.get? 1 with
  | none => .error (.MemoryLayout (strOf cs))
  | some addrCs =>
    match parseHexU32 addrCs with
    | none => .error (.MemoryLayout (strOf cs))
    | some address =>
      match parts.get? 2 with
      | none => .error (.MemoryLayout ("Missing pages in " ++ strOf cs))
      | some regionsCs =>
        match parseRegions (splitOnChar ',' regionsCs) with
        | .error e => .error e
        | .ok rs => .ok ⟨buildRegions address rs⟩

/-- MemoryLayout::address, src/dfu/src/memory_layout.rs lines 90-100:
    first page p with p.address <= a < p.address + p.size (u32 sum), else
    Error::Address(a). -/
def findPage : List Page → Nat → Except Error Page
  | [], a => .error (.Address a)
  | p :: ps, a =>
    if p.address ≤ a ∧ a < (p.address + p.size) % U32 then .ok ⟨p.address, p.size⟩
    else findPage ps a

def MemoryLayout.address (m : MemoryLayout) (a : Nat) : Except Error Page :=
  findPage m.pages a

/-- The while loop of MemoryLayout::num_pages, src/dfu/src/memory_layout.rs
    lines 82-87, with explicit fuel (the source loop can diverge only if the
    walking address wraps past 2^32, which no run below does): while
    addr < end, look the address up, advance by the page size (u32 sum),
    count.  none = out of fuel. -/
def numPagesGo (m : MemoryLayout) : Nat → Nat → Nat → Nat → Option (Except Error Nat)
  | 0, addr, e, n => if addr < e then none else some (.ok n)
  | fuel + 1, addr, e, n =>
    if addr < e then
      match m.address addr with
      | .error err => some (.error err)
      | .ok p => numPagesGo m fuel ((addr + p.size) % U32) e (n + 1)
    else some (.ok n)

/-- MemoryLayout::num_pages, src/dfu/src/memory_layout.rs lines 79-88:
    end = address + length in u32 arithmetic; fuel end - address suffices
    because every counted page moves the address forward by at least 1. -/
def MemoryLayout.num_pages (m : MemoryLayout) (address length : Nat) :
    Option (Except Error Nat) :=
  let e := (address + length) % U32
  numPagesGo m (e - address) address e 0

/-- The addresses handed to ErasePage by the loop of Dfu::erase_pages,
    src/dfu-nusb/src/core.rs lines 363-369: realigned to the page start and
    stepped by that page's size, once per counted page. -/
def eraseList (address size : Nat) : Nat → List Nat
  | 0 => []
  | n + 1 => address :: eraseList ((address + size) % U32) size n

/-- Dfu::erase_pages, src/dfu-nusb/src/core.rs lines 357-371, projected to
    the ErasePage commands it issues (the interleaved status waits are
    assumed to succeed; a failing wait would only shorten the list). -/
def erasePagesCommands (m : MemoryLayout) (address length : Nat) :
    Option (Except Error (List Nat)) :=
  match m.num_pages address length with
  | none => none
  | some (.error e) => some (.error e)
  | some (.ok n) =>
    match m.address address with
    | .error e => some (.error e)
    | .ok p => some (.ok (eraseList p.address p.size n))

/-- The relation linking consecutive pushed pages: the next page starts at
    the (u32) end of the previous one. -/
def chainRel (p q : Page) : Prop := q.address = (p.address + p.size) % U32

lemma buildRegions_head :
    ∀ (rs : List (Nat × Nat)) (a : Nat) (q : Page),
      (buildRegions a rs).head? = some q → q.address = a := by
  intro rs
  induction rs with
  | nil => intro a q h; simp [buildRegions] at h
  | cons r rest ih =>
    intro a q h
    obtain ⟨cnt, size⟩ := r
    cases cnt with
    | zero =>
      rw [buildRegions, buildRegion, afterRegion] at h
      exact ih a q (by simpa using h)
    | succ n =>
      rw [buildRegions, buildRegion] at h
      simp at h
      rw [← h]

lemma chain_buildRegion_append (size : Nat) :
    ∀ (n a : Nat) (rest : List Page),
      List.Chain' chainRel rest →
      (∀ q, rest.head? = some q → q.address = afterRegion a size n) →
      List.Chain' chainRel (buildRegion a size n ++ rest) := by
  intro n
  induction n with
  | zero =>
    intro a rest hrest _
    simpa [buildRegion] using hrest
  | succ m ih =>
    intro a rest hrest hhead
    rw [buildRegion, List.cons_append, List.chain'_cons']
    refine ⟨?_, ih ((a + size) % U32) rest hrest (fun q hq => hhead q hq)⟩
    intro y hy
    cases m with
    | zero =>
      rw [buildRegion, List.nil_append] at hy
      have := hhead y (by simpa using hy)
      rw [chainRel, this, afterRegion, afterRegion]
    | succ m2 =>
      rw [buildRegion] at hy
      simp at hy
      rw [chainRel, ← hy]

lemma chain_buildRegions :
    ∀ (rs : List (Nat × Nat)) (a : Nat), List.Chain' chainRel (buildRegions a rs) := by
  intro rs
  induction rs with
  | nil => intro a; simp [buildRegions]
  | cons r rest ih =>
    intro a
    obtain ⟨cnt, size⟩ := r
    rw [buildRegions]
    exact chain_buildRegion_append size cnt a _ (ih _)
      (fun q hq => buildRegions_head rest _ q hq)

lemma fromStr_chain (s : String) (m : MemoryLayout)
    (h : MemoryLayout.fromStr s = .ok m) : List.Chain' chainRel m.pages := by
  rw [MemoryLayout.fromStr] at h
  repeat (any_goals split at h)
  all_goals try exact Except.noConfusion h
  injection h with h2
  rw [← h2]
  exact chain_buildRegions _ _

lemma chain_le :
    ∀ (rest : List Page) (p : Page), List.Chain' chainRel (p :: rest) →
      (∀ x ∈ p :: rest, x.address + x.size < U32) →
      ∀ q ∈ rest, p.address + p.size ≤ q.address := by
  intro rest
  induction rest with
  | nil => intro p _ _ q hq; simp at hq
  | cons q2 rest2 ih =>
    intro p hchain hnw q hq
    have hrel : chainRel p q2 := (List.chain'_cons.mp hchain).1
    have heq : q2.address = p.address + p.size := by
      rw [chainRel] at hrel
      rw [hrel, Nat.mod_eq_of_lt (hnw p (by simp))]
    rcases List.mem_cons.mp hq with rfl | hq2
    · omega
    · have h2 := ih q2 (List.chain'_cons.mp hchain).2
        (fun x hx => hnw x (List.mem_cons_of_mem p hx)) q hq2
      have h3 : q2.address + q2.size < U32 := hnw q2 (by simp)
      omega

lemma chain_pairwise (l : List Page) (hc : List.Chain' chainRel l)
    (hnw : ∀ p ∈ l, p.address + p.size < U32) :
    List.Pairwise (fun p q => p.address + p.size ≤ q.address) l := by
  induction l with
  | nil => exact List.Pairwise.nil
  | cons p rest ih =>
    refine List.Pairwise.cons (chain_le rest p hc hnw) ?_
    exact ih hc.tail (fun x hx => hnw x (List.mem_cons_of_mem p hx))

/-- The three-page layout of the source tests,
    parsed from "/0x08010000/02*16K,01*64K". -/
def sampleLayout : MemoryLayout :=
  ⟨[⟨0x08010000, 0x4000⟩, ⟨0x08014000, 0x4000⟩, ⟨0x08018000, 0x10000⟩]⟩

/-- A layout whose page construction wraps past 2^32,
    parsed from "/0xFFFFA000/03*16K". -/
def wrapLayout : MemoryLayout :=
  ⟨[⟨0xFFFFA000, 0x4000⟩, ⟨0xFFFFE000, 0x4000⟩, ⟨0x2000, 0x4000⟩]⟩

/-- C5 counterexample: from_str accepts "/0xFFFFA000/03*16K", whose third
    page starts below the end of the first (the accumulated u32 address
    wrapped), so pages[0].address + pages[0].size ≤ pages[2].address fails
    and the addresses are not increasing. -/
theorem C5_counterexample :
    MemoryLayout.fromStr "/0xFFFFA000/03*16K" = .ok wrapLayout ∧
    ¬ ((wrapLayout.pages.get ⟨0, by decide⟩).address +
        (wrapLayout.pages.get ⟨0, by decide⟩).size ≤
       (wrapLayout.pages.get ⟨2, by decide⟩).address) ∧
    ¬ ((wrapLayout.pages.get ⟨0, by decide⟩).address ≤
       (wrapLayout.pages.get ⟨2, by decide⟩).address) := by
  refine ⟨by decide, by decide, by decide⟩

/-- C5 (amended): for every descriptor string accepted by from_str, the
    pages satisfy pages[i].address + pages[i].size ≤ pages[j].address for
    all i < j provided the construction never wraps a u32, i.e. every page's
    address + size stays below 2^32; when the accumulated address wraps
    (near the top of the u32 range) the invariant can fail. -/
theorem C5_layout_invariant (s : String) (m : MemoryLayout)
    (h : MemoryLayout.fromStr s = .ok m)
    (hnw : ∀ p ∈ m.pages, p.address + p.size < U32) :
    ∀ (i j : Nat) (hi : i < m.pages.length) (hj : j < m.pages.length), i < j →
      (m.pages.get ⟨i, hi⟩).address + (m.pages.get ⟨i, hi⟩).size ≤
        (m.pages.get ⟨j, hj⟩).address := by
  have hp := chain_pairwise m.pages (fromStr_chain s m h) hnw
  intro i j hi hj hij
  exact List.pairwise_iff_get.mp hp ⟨i, hi⟩ ⟨j, hj⟩ hij

/-- C5 witness: the amended theorem applied to the sample layout at
    indices 0 and 2. -/
theorem C5_layout_invariant_witness :
    (sampleLayout.pages.get ⟨0, by decide⟩).address +
      (sampleLayout.pages.get ⟨0, by decide⟩).size ≤
    (sampleLayout.pages.get ⟨2, by decide⟩).address :=
  C5_layout_invariant "/0x08010000/02*16K,01*64K" sampleLayout (by decide)
    (by decide) 0 2 (by decide) (by decide) (by decide)

lemma findPage_error :
    ∀ (ps : List Page) (a : Nat) (e : Error),
      findPage ps a = .error e → e = .Address a := by
  intro ps
  induction ps with
  | nil =>
    intro a e h
    rw [findPage] at h
    cases h
    rfl
  | cons p rest ih =>
    intro a e h
    rw [findPage] at h
    split at h
    · exact Except.noConfusion h
    · exact ih a e h

lemma numPagesGo_error (m : MemoryLayout) :
    ∀ (fuel addr e n : Nat) (err : Error),
      numPagesGo m fuel addr e n = some (.error err) →
      ∃ a, err = .Address a ∧ m.address a = .error (.Address a) := by
  intro fuel
  induction fuel with
  | zero =>
    intro addr e n err h
    rw [numPagesGo] at h
    split at h
    · exact Option.noConfusion h
    · simp at h
  | succ f ih =>
    intro addr e n err h
    rw [numPagesGo] at h
    split at h
    · cases hq : m.address addr with
      | error err2 =>
        rw [hq] at h
        simp at h
        refine ⟨addr, ?_, ?_⟩
        · rw [← h]
          exact findPage_error m.pages addr err2 hq
        · rw [hq, findPage_error m.pages addr err2 hq]
      | ok p =>
        rw [hq] at h
        exact ih _ _ _ _ h
    · simp at h

lemma num_pages_single (m : MemoryLayout) (addr len : Nat) (p : Page)
    (hlen : 0 < len) (hfit : len ≤ p.size) (hq : m.address addr = .ok p)
    (hnw : addr + p.size < U32) :
    m.num_pages addr len = some (.ok 1) := by
  have he : (addr + len) % U32 = addr + len := Nat.mod_eq_of_lt (by omega)
  rw [MemoryLayout.num_pages]
  rw [he]
  have hfuel : addr + len - addr = len := by omega
  rw [hfuel]
  obtain ⟨l2, rfl⟩ : ∃ l2, len = l2 + 1 := ⟨len - 1, by omega⟩
  rw [numPagesGo, if_pos (by omega), hq]
  have hstop : ¬ (addr + p.size) % U32 < addr + (l2 + 1) := by
    rw [Nat.mod_eq_of_lt hnw]
    omega
  cases l2 with
  | zero => simp only [numPagesGo, if_neg hstop]
  | succ l3 => simp only [numPagesGo, if_neg hstop]

/-- C6: on the layout parsed from "/0x08010000/02*16K,01*64K" the four
    num_pages examples hold; a start address lying (possibly strictly)
    inside a page counts that page in full, so any request of length at most
    that page's size needs exactly one page; and a num_pages failure is
    always Address(a) for an address a that no page of the layout contains. -/
theorem C6_num_pages :
    MemoryLayout.fromStr "/0x08010000/02*16K,01*64K" = .ok sampleLayout ∧
    sampleLayout.num_pages 0x08010000 0x4000 = some (.ok 1) ∧
    sampleLayout.num_pages 0x08010000 0x4001 = some (.ok 2) ∧
    sampleLayout.num_pages 0x08010000 0xFFFF = some (.ok 3) ∧
    sampleLayout.num_pages 0x08014000 0x8000 = some (.ok 2) ∧
    sampleLayout.num_pages 0x08000000 0xFFFF = some (.error (.Address 0x08000000)) ∧
    (∀ (m : MemoryLayout) (addr len : Nat) (p : Page),
      0 < len → len ≤ p.size → m.address addr = .ok p → addr + p.size < U32 →
      m.num_pages addr len = some (.ok 1)) ∧
    (∀ (m : MemoryLayout) (addr len : Nat) (err : Error),
      m.num_pages addr len = some (.error err) →
      ∃ a, err = .Address a ∧ m.address a = .error (.Address a)) := by
  refine ⟨by decide, by decide, by decide, by decide, by decide, by decide,
    fun m addr len p h1 h2 h3 h4 => num_pages_single m addr len p h1 h2 h3 h4,
    fun m addr len err h => numPagesGo_error m _ _ _ _ err h⟩

/-- C6 witness: the general one-page part of the theorem applied at a start
    address strictly inside the second 16K page. -/
theorem C6_num_pages_witness :
    sampleLayout.num_pages 0x08014001 0x3000 = some (.ok 1) :=
  C6_num_pages.2.2.2.2.2.2.1 sampleLayout 0x08014001 0x3000 ⟨0x08014000, 0x4000⟩
    (by decide) (by decide) (by decide) (by decide)

/-- C10: num_pages computes end = address + length in (wrapping) u32
    arithmetic, so whenever the sum wraps to a value at most the start
    address the while loop never runs: the result is Ok(0) without
    consulting the layout, and erase_pages consequently issues no ErasePage
    command for such a range. -/
theorem C10_num_pages_wrap (m : MemoryLayout) (addr len : Nat)
    (hlen : 0 < len) (hwrap : (addr + len) % U32 ≤ addr) :
    m.num_pages addr len = some (.ok 0) ∧
    (∀ cmds, erasePagesCommands m addr len = some (.ok cmds) → cmds = []) := by
  have hmain : m.num_pages addr len = some (.ok 0) := by
    rw [MemoryLayout.num_pages]
    rw [show (addr + len) % U32 - addr = 0 by omega]
    rw [numPagesGo, if_neg (by omega)]
  refine ⟨hmain, fun cmds hc => ?_⟩
  rw [erasePagesCommands, hmain] at hc
  dsimp only at hc
  cases hq : m.address addr with
  | error e =>
    rw [hq] at hc
    simp at hc
  | ok p =>
    rw [hq] at hc
    simp at hc
    rw [← hc, eraseList]

/-- C10 witness: the theorem applied to the sample layout with a range that
    wraps past the top of the u32 space. -/
theorem C10_num_pages_wrap_witness :
    sampleLayout.num_pages 0xFFFFFFFF 2 = some (.ok 0) :=
  (C10_num_pages_wrap sampleLayout 0xFFFFFFFF 2 (by decide) (by decide)).1
